import Mathlib

/-!
Verification of the quic_gwclient protocol stack: a shallow embedding of the
wire codec (`proto` package), the AES-CBC body framing (`utils` package), the
response read loop and segmentation pass, the chunked-transfer decoder and the
HTTP-response detector (`client` package), together with theorems checking the
specified properties against these definitions.

Bytes are modelled as `Nat` values (< 256 in well-formed data) and byte slices
as `List Nat`.  Go integer types (`uint8/16/32`, `int`) are modelled as `Nat`
with explicit range hypotheses where a property depends on the width.
-/

/-! ### Byte-level helpers (package `utils`, buffer.go) -/

/-- Big-endian 2-byte encoding, as `binary.BigEndian.PutUint16`. -/
def u16be (n : Nat) : List Nat := [n / 256 % 256, n % 256]

/-- Big-endian 4-byte encoding, as `binary.BigEndian.PutUint32`. -/
def u32be (n : Nat) : List Nat :=
  [n / 16777216 % 256, n / 65536 % 256, n / 256 % 256, n % 256]

/-- Big-endian recombination of a byte list (`binary.BigEndian.Uint16/Uint32`). -/
def beVal (bs : List Nat) : Nat := bs.foldl (fun acc b => acc * 256 + b) 0

/-- One `ReadN n`-then-recombine step of `utils.Buffer` (buffer.go).
Go's `bytes.Buffer.Read` errors only on an empty buffer (the caller then keeps
the zero value); on a short buffer it fills what is available and leaves the
rest of the `n`-byte destination as zero bytes, without error. -/
def bufReadN (l : List Nat) (n : Nat) : Nat × List Nat :=
  match l with
  | [] => (0, [])
  | _ :: _ => (beVal (l.take n ++ List.replicate (n - l.length) 0), l.drop n)

/-- `utils.Buffer.ReadUint8` (`bytes.Buffer.ReadByte`): zero value on empty. -/
def bufReadU8 (l : List Nat) : Nat × List Nat :=
  match l with
  | [] => (0, [])
  | b :: r => (b, r)

/-! ### Wire headers (package `proto`, message file) -/

/-- `proto.HEAD_TAG`: the magic constant, ASCII "EMM:". -/
def HEAD_TAG : Nat := 1162693946

/-- `proto.TransferHeader` (request header). -/
structure TransferHeader where
  Tag : Nat
  Version : Nat
  Command : Nat
  ProtoType : Nat
  Option : Nat
  Reserve : Nat
  DataLen : Nat
  Crc : Nat
  deriving DecidableEq, Repr

/-- `proto.TransferHeader.Marshal`: sequential big-endian writes. -/
def TransferHeader.Marshal (t : TransferHeader) : List Nat :=
  u32be t.Tag ++ u16be t.Version ++ u16be t.Command ++ [t.ProtoType] ++
    [t.Option] ++ u16be t.Reserve ++ u32be t.DataLen ++ u32be t.Crc

/-- `proto.TransferHeader.UnMarshal`: sequential reads; the Go code drops every
read error and always returns `nil`, so this is a total function. -/
def TransferHeader.UnMarshal (data : List Nat) : TransferHeader :=
  let p1 := bufReadN data 4
  let p2 := bufReadN p1.2 2
  let p3 := bufReadN p2.2 2
  let p4 := bufReadU8 p3.2
  let p5 := bufReadU8 p4.2
  let p6 := bufReadN p5.2 2
  let p7 := bufReadN p6.2 4
  let p8 := bufReadN p7.2 4
  ⟨p1.1, p2.1, p3.1, p4.1, p5.1, p6.1, p7.1, p8.1⟩

/-- `proto.ResponseHeader` (response header). -/
structure ResponseHeader where
  Tag : Nat
  Version : Nat
  Command : Nat
  Result : Nat
  Option : Nat
  Reserve : Nat
  DataLen : Nat
  OriginLen : Nat
  deriving DecidableEq, Repr

/-- `proto.ResponseHeader.Marshal`: sequential big-endian writes. -/
def ResponseHeader.Marshal (t : ResponseHeader) : List Nat :=
  u32be t.Tag ++ u16be t.Version ++ u16be t.Command ++ u16be t.Result ++
    [t.Option] ++ [t.Reserve] ++ u32be t.DataLen ++ u32be t.OriginLen

/-- `proto.ResponseHeader.UnMarshal`: sequential reads, never fails. -/
def ResponseHeader.UnMarshal (data : List Nat) : ResponseHeader :=
  let p1 := bufReadN data 4
  let p2 := bufReadN p1.2 2
  let p3 := bufReadN p2.2 2
  let p4 := bufReadN p3.2 2
  let p5 := bufReadU8 p4.2
  let p6 := bufReadU8 p5.2
  let p7 := bufReadN p6.2 4
  let p8 := bufReadN p7.2 4
  ⟨p1.1, p2.1, p3.1, p4.1, p5.1, p6.1, p7.1, p8.1⟩

/-- `proto.UdpResponseMessage.ParseBody`: allocates `bodylen` zero bytes and
copies `min bodylen (buf.length - 20)` bytes from offset 20 of `buf`; returns
`nil` (empty body) when `bodylen <= 0` or `buf` is no longer than the header. -/
def parseBody (buf : List Nat) (bodylen : Nat) : List Nat :=
  if bodylen = 0 ∨ buf.length ≤ 20 then []
  else
    let src := (buf.drop 20).take bodylen
    src ++ List.replicate (bodylen - src.length) 0

/-! ### `parseMessage` (client package, transfer client file) -/

/-- The header-decoding phase of `client.parseMessage` (its first guards):
fail when fewer than 20 bytes are supplied, unmarshal the first 20 bytes,
fail when the decoded `Tag` is not `HEAD_TAG`, otherwise hand back the header. -/
def parseHeaderChecked (message : List Nat) (msgLength : Nat) : Option ResponseHeader :=
  if msgLength < 20 then none
  else
    let h := ResponseHeader.UnMarshal (message.take 20)
    if h.Tag ≠ HEAD_TAG then none else some h

/-- Result quintuple of `client.parseMessage`:
`(msglen, Command, DataLen, Result, body)`. -/
structure ParsedMsg where
  respLen : Nat
  cmd : Nat
  dataLen : Nat
  result : Nat
  body : List Nat
  deriving DecidableEq, Repr

/-- `client.parseMessage`: decode and validate the header, compute the total
message length `DataLen + 20`, require it to fit in `msgLength`, and extract
the body via `ParseBody`. All failures return the zero quintuple. -/
def parseMessage (message : List Nat) (msgLength : Nat) : ParsedMsg :=
  match parseHeaderChecked message msgLength with
  | none => ⟨0, 0, 0, 0, []⟩
  | some h =>
    let msglen := h.DataLen + 20
    if msgLength < msglen then ⟨0, 0, 0, 0, []⟩
    else if 0 < h.DataLen then
      let body := parseBody (message.take msglen) h.DataLen
      if 0 < body.length then ⟨msglen, h.Command, h.DataLen, h.Result, body⟩
      else ⟨msglen, h.Command, h.DataLen, h.Result, []⟩
    else ⟨msglen, h.Command, h.DataLen, h.Result, []⟩

/-! ### Substring search (`bytes.Index` / `strings.Index` / `strings.Contains`) -/

/-- `bytes.Index hay pat` (note the argument order here: pattern first, then
haystack): index of the first occurrence of `pat`, `none` when absent. -/
def indexOfSub (pat : List Nat) : List Nat → Option Nat
  | [] => if pat.isPrefixOf ([] : List Nat) then some 0 else none
  | b :: t =>
    if pat.isPrefixOf (b :: t) then some 0
    else (indexOfSub pat t).map (· + 1)

/-- `strings.Contains hay pat` / `bytes.Contains`. -/
def containsSub (hay pat : List Nat) : Bool := (indexOfSub pat hay).isSome

/-! ### Segmentation pass of `SendTransferRequestWithDownload`
(root `client` package, download file, the loop over `remainingRaw`). -/

/-- The "EMM:" tag bytes the resynchronization scan looks for. -/
def tagMarker : List Nat := [69, 77, 77, 58]

/-- The "HTTP/" marker bytes. -/
def httpMarker : List Nat := [72, 84, 84, 80, 47]

/-- The resynchronization scan of the segmentation pass: look for the tag bytes
at offsets `1 ≤ i < min 100 len - 4` and return the first hit. -/
def tagScanOffset (l : List Nat) : Option Nat :=
  let maxScanLen := min 100 l.length
  (List.range' 1 (maxScanLen - 5)).find? (fun i => tagMarker.isPrefixOf (l.drop i))

/-- One structural-fuel encoding of the segmentation `for` loop of
`SendTransferRequestWithDownload`: returns the pure-payload bytes accumulated
from the current `remainingRaw` onwards.  Every iteration of the source loop
either stops or strictly shrinks `remainingRaw`, so fuel `remainingRaw.length`
suffices (the wrapper `segmentation` supplies it).  Branches, in source order:
loop guard `len > 20`; parse at offset 0; on failure try the "HTTP/" marker,
then the tag rescan, then fall back to appending everything; `LINK_CLOSE`
stops; invalid length stops; otherwise append the body and advance by
`RESPONSE_HEAD_LEN + respLen` bytes (the quantity the source computes). -/
def segmentPassF : Nat → List Nat → List Nat
  | 0, _ => []
  | fuel + 1, remainingRaw =>
    if remainingRaw.length ≤ 20 then []
    else
      let pm := parseMessage remainingRaw remainingRaw.length
      if pm.respLen = 0 ∨ pm.cmd = 0 then
        match indexOfSub httpMarker remainingRaw with
        | some i => remainingRaw.drop i
        | none =>
          match tagScanOffset remainingRaw with
          | some off => segmentPassF fuel (remainingRaw.drop off)
          | none => remainingRaw
      else if pm.cmd = 200 then []
      else if remainingRaw.length < pm.respLen then []
      else
        pm.body ++
          (if remainingRaw.length ≤ 20 + pm.respLen then []
           else segmentPassF fuel (remainingRaw.drop (20 + pm.respLen)))

/-- The whole segmentation pass over the accumulated raw buffer. -/
def segmentation (raw : List Nat) : List Nat := segmentPassF raw.length raw

/-- A concrete, fully valid response header: `DataLen = 1`, `Command = 7`
(`TRAN_ACK`), used to probe the segmentation pass. -/
def demoRespHeader : ResponseHeader :=
  ⟨HEAD_TAG, 1, 7, 0, 0, 0, 1, 1⟩

/-- A concrete 21-byte wire message: the marshalled `demoRespHeader` followed
by the single body byte `b` (so the header `DataLen` equals the body length). -/
def demoMessage (b : Nat) : List Nat := demoRespHeader.Marshal ++ [b]

/-! ### AES-CBC framing (`utils` package, aes file)

The AES block permutation itself lives in Go's standard library, outside this
repository; it is abstracted here as the parameters `E` (encryption of one
16-byte block under the normalized key) and `D` (its inverse).  Key
normalization (MD5 of a key that is not 16/24/32 bytes) is applied identically
on both sides in the source and is absorbed into `E`/`D`.  Everything the
repository's own code does — zero-padding, the all-zero IV, CBC chaining, the
undersized-ciphertext check and the trailing-byte trim — is modelled
explicitly. -/

/-- Byte-wise XOR of two equally long byte slices (CBC chaining). -/
def xorBytes (a b : List Nat) : List Nat := List.zipWith (fun x y => x ^^^ y) a b

/-- The all-zero initialization vector (`iv := make([]byte, aes.BlockSize)`). -/
def zeroIV : List Nat := List.replicate 16 0

/-- The padding step of `utils.EncryptAES`: right-pad with zero bytes to the
next multiple of 16 (`blocksize := ptlen/16` rounded up, copy into a zeroed
buffer of `blocksize*16` bytes). -/
def aesPad (p : List Nat) : List Nat :=
  let blocksize := if p.length % 16 > 0 then p.length / 16 + 1 else p.length / 16
  p ++ List.replicate (blocksize * 16 - p.length) 0

/-- CBC encryption of `k` 16-byte blocks with chaining value `prev`
(`cipher.NewCBCEncrypter(c, iv).CryptBlocks`). -/
def cbcEncBlocks (E : List Nat → List Nat) : Nat → List Nat → List Nat → List Nat
  | 0, _, _ => []
  | k + 1, prev, data =>
    let c := E (xorBytes (data.take 16) prev)
    c ++ cbcEncBlocks E k c (data.drop 16)

/-- CBC decryption of `k` 16-byte blocks with chaining value `prev`
(`cipher.NewCBCDecrypter(block, iv).CryptBlocks`). -/
def cbcDecBlocks (D : List Nat → List Nat) : Nat → List Nat → List Nat → List Nat
  | 0, _, _ => []
  | k + 1, prev, data =>
    xorBytes (D (data.take 16)) prev ++ cbcDecBlocks D k (data.take 16) (data.drop 16)

/-- `utils.EncryptAES`: zero-pad, then CBC-encrypt with the all-zero IV.
`aes.NewCipher` cannot fail after key normalization, so encryption is total. -/
def EncryptAES (E : List Nat → List Nat) (plaintext : List Nat) : List Nat :=
  cbcEncBlocks E ((aesPad plaintext).length / 16) zeroIV (aesPad plaintext)

/-- Outcome of a Go call that can return a value, return an error, or crash the
process with a runtime panic. -/
inductive GoAES where
  | ok (plain : List Nat)
  | sizeErr
  | panicked
  deriving DecidableEq, Repr

/-- `utils.DecryptAES`: return `kAesDecryptInputSizeError` when the ciphertext
is shorter than one block; for longer ciphertexts whose length is not a
multiple of 16 the `CryptBlocks` call panics (`crypto/cipher: input not full
blocks`) — the source has no modulo guard; otherwise CBC-decrypt with the
all-zero IV and, when the last decrypted byte lies in `[1,16]`, trim that many
trailing bytes. -/
def DecryptAES (D : List Nat → List Nat) (ciphertext : List Nat) : GoAES :=
  if ciphertext.length < 16 then .sizeErr
  else if ciphertext.length % 16 ≠ 0 then .panicked
  else
    let decoded := cbcDecBlocks D (ciphertext.length / 16) zeroIV ciphertext
    let padLen := decoded.getLastD 0
    if 0 < padLen ∧ padLen ≤ 16 then .ok (decoded.take (decoded.length - padLen))
    else .ok decoded

/-! ### The response read loop of `SendTransferRequestWithDownload`

One iteration of the `for !isComplete && retries <= options.MaxRetries` loop,
as a step function over an explicit state.  A `ReadEvent` is the outcome of one
`stream.Read` call: the bytes delivered, the accompanying error value, and the
wall-clock instant of the read (time is modelled as a `Nat`; `time.Since
lastReadTime > threshold` becomes `threshold < now - lastReadTime`).  Stream
close / reconnect / sleeping are external effects with no bearing on the
state fields modelled here. -/

inductive ReadErr where
  | noErr
  | eofErr
  | timeoutErr
  | otherErr (appClose : Bool)
  deriving DecidableEq, Repr

structure ReadEvent where
  chunk : List Nat
  err : ReadErr
  now : Nat
  deriving DecidableEq, Repr

structure LoopConfig where
  maxRetries : Nat
  threshold : Nat
  maxDownloadSize : Nat
  deriving DecidableEq, Repr

structure LoopState where
  isComplete : Bool
  retries : Nat
  noDataCount : Nat
  lastReadTime : Nat
  readTimeout : Nat
  received : Nat
  raw : List Nat
  deriving DecidableEq, Repr

/-- How one loop iteration ends: fall through to the next iteration, `break`
out of the loop (post-processing then returns the accumulated result with a
`nil` error), `return nil, err` (read failure with nothing accumulated), or
`return nil, overflow-err`. -/
inductive StepRes where
  | next (s : LoopState)
  | brk (s : LoopState)
  | fail (s : LoopState) (e : ReadErr)
  | overflow (s : LoopState)
  deriving DecidableEq, Repr

def StepRes.state : StepRes → LoopState
  | .next s => s
  | .brk s => s
  | .fail s _ => s
  | .overflow s => s

def StepRes.isFail : StepRes → Bool
  | .fail _ _ => true
  | _ => false

/-- The loop-local `var requireContinue bool = true`, never mutated. -/
def requireContinue : Bool := true

/-- The tail of a loop iteration: the `if err != nil` ladder (EOF completes;
timeout completes only past the idle threshold, else polls again; any other
error bumps the retry counter and either retries, keeps accumulated data by
breaking, or returns the error), then the `MaxDownloadSize` check and the
deadline shortening, which the source reaches only when `err == nil`. -/
def afterRead (cfg : LoopConfig) (s : LoopState) (ev : ReadEvent) : StepRes :=
  match ev.err with
  | .noErr =>
    if cfg.maxDownloadSize < s.raw.length then .overflow s
    else if requireContinue ∧ ¬s.isComplete then .next { s with readTimeout := 5 }
    else .next s
  | .eofErr => .brk { s with isComplete := true }
  | .timeoutErr =>
    if cfg.threshold < ev.now - s.lastReadTime then .brk { s with isComplete := true }
    else .next s
  | .otherErr _ =>
    let s2 := { s with retries := s.retries + 1 }
    if s2.retries ≤ cfg.maxRetries then .next s2
    else if s2.raw ≠ [] then .brk s2
    else .fail s2 ev.err

/-- One iteration of the read loop.  `readBytes > 0`: reset the empty-read
counter, stamp the read time, append the chunk, parse this individual chunk
and complete on `LINK_CLOSE` (the self-contained-message exit is dead code
because `requireContinue` is constantly `true`).  `readBytes == 0`: bump the
empty-read counter and complete once it reaches 3 with the idle threshold
exceeded.  Then handle the read error. -/
def loopStep (cfg : LoopConfig) (s : LoopState) (ev : ReadEvent) : StepRes :=
  let readBytes := ev.chunk.length
  if 0 < readBytes then
    let s1 := { s with noDataCount := 0, lastReadTime := ev.now,
                       received := s.received + readBytes, raw := s.raw ++ ev.chunk }
    let pm := parseMessage ev.chunk readBytes
    if pm.cmd = 200 then .brk { s1 with isComplete := true }
    else if 0 < pm.respLen ∧ pm.respLen ≤ readBytes ∧ requireContinue = false then
      .brk { s1 with isComplete := true }
    else afterRead cfg s1 ev
  else
    let s1 := { s with noDataCount := s.noDataCount + 1 }
    if 3 ≤ s1.noDataCount ∧ cfg.threshold < ev.now - s1.lastReadTime then
      .brk { s1 with isComplete := true }
    else afterRead cfg s1 ev

/-- How the whole loop ends, given a finite schedule of read events. -/
inductive LoopExit where
  | finished (s : LoopState)
  | failed (s : LoopState) (e : ReadErr)
  | overflowed (s : LoopState)
  | guardStop (s : LoopState)
  | outOfEvents (s : LoopState)
  deriving DecidableEq, Repr

/-- Drive the read loop over a list of read events, re-testing the loop guard
before every iteration, exactly as the source `for` statement does. -/
def runLoop (cfg : LoopConfig) : LoopState → List ReadEvent → LoopExit
  | s, [] => .outOfEvents s
  | s, ev :: rest =>
    if s.isComplete = true ∨ cfg.maxRetries < s.retries then .guardStop s
    else
      match loopStep cfg s ev with
      | .next s2 => runLoop cfg s2 rest
      | .brk s2 => .finished s2
      | .fail s2 e => .failed s2 e
      | .overflow s2 => .overflowed s2

/-! ### Chunked transfer decoding (`client.parseChunkedBody`) -/

/-- ASCII bytes of a string literal (all modelled inputs are ASCII). -/
def ascii (s : String) : List Nat := s.data.map Char.toNat

/-- Go's `unicode.IsSpace` on the ASCII range, as used by `strings.TrimSpace`. -/
def isGoSpaceB (b : Nat) : Bool :=
  b == 9 || b == 10 || b == 11 || b == 12 || b == 13 || b == 32

/-- `strings.TrimSpace` on ASCII data: drop white space from both ends. -/
def trimSpace (l : List Nat) : List Nat :=
  ((l.dropWhile isGoSpaceB).reverse.dropWhile isGoSpaceB).reverse

/-- Value of one hexadecimal digit byte, as accepted by `strconv.ParseInt`
with base 16. -/
def hexDigitVal (b : Nat) : Option Nat :=
  if 48 ≤ b ∧ b ≤ 57 then some (b - 48)
  else if 97 ≤ b ∧ b ≤ 102 then some (b - 87)
  else if 65 ≤ b ∧ b ≤ 70 then some (b - 55)
  else none

/-- Accumulate hexadecimal digits; any non-digit byte is an error. -/
def hexFold : List Nat → Nat → Option Nat
  | [], acc => some acc
  | b :: t, acc =>
    match hexDigitVal b with
    | none => none
    | some d => hexFold t (acc * 16 + d)

/-- `strconv.ParseInt(s, 16, 64)`: optional sign, at least one hex digit, no
prefixes, error outside the signed 64-bit range. -/
def parseIntHex (l : List Nat) : Option Int :=
  match l with
  | [] => none
  | b :: rest =>
    let signed : Bool × List Nat :=
      if b = 45 then (true, rest)
      else if b = 43 then (false, rest)
      else (false, b :: rest)
    match signed.2 with
    | [] => none
    | ds =>
      match hexFold ds 0 with
      | none => none
      | some v =>
        if signed.1 then (if v ≤ 9223372036854775808 then some (-(v : Int)) else none)
        else (if v ≤ 9223372036854775807 then some (v : Int) else none)

/-- Structural-fuel encoding of the `for len(remaining) > 0` loop of
`client.parseChunkedBody`; every iteration strictly shrinks `remaining`, so
fuel `remaining.length` suffices (supplied by the wrapper).  Source order:
find the size-line terminator ("\r\n", else "\n", else error); trim the size
text and cut a ";" extension; parse it as hex (error propagates); a zero size
ends decoding; skip the terminator, copy `chunkSize` data bytes (clamped to
what is available, which also ends decoding); then skip the chunk's trailing
"\r\n" or "\n" if present. -/
def parseChunkedF : Nat → List Nat → List Nat → Option (List Nat)
  | 0, _, acc => some acc
  | fuel + 1, remaining, acc =>
    if remaining.isEmpty then some acc
    else
      let szEnd :=
        match indexOfSub [13, 10] remaining with
        | some i => some i
        | none => indexOfSub [10] remaining
      match szEnd with
      | none => none
      | some chunkSizeEnd =>
        let line := trimSpace (remaining.take chunkSizeEnd)
        let line2 :=
          match indexOfSub [59] line with
          | some j => line.take j
          | none => line
        match parseIntHex line2 with
        | none => none
        | some chunkSize =>
          if chunkSize = 0 then some acc
          else
            let chunkStart :=
              if List.isPrefixOf [13, 10] (remaining.drop chunkSizeEnd)
              then chunkSizeEnd + 2 else chunkSizeEnd + 1
            let chunkEnd : Int := (chunkStart : Int) + chunkSize
            if (remaining.length : Int) < chunkEnd then
              some (acc ++ remaining.drop chunkStart)
            else
              let cEnd := chunkEnd.toNat
              let acc2 := acc ++ (remaining.drop chunkStart).take (cEnd - chunkStart)
              if cEnd + 2 ≤ remaining.length ∧ (remaining.drop cEnd).take 2 = [13, 10] then
                parseChunkedF fuel (remaining.drop (cEnd + 2)) acc2
              else if cEnd + 1 ≤ remaining.length ∧ (remaining.drop cEnd).take 1 = [10] then
                parseChunkedF fuel (remaining.drop (cEnd + 1)) acc2
              else if cEnd < remaining.length then
                parseChunkedF fuel (remaining.drop cEnd) acc2
              else some acc2

/-- `client.parseChunkedBody`: empty input decodes to empty output. -/
def parseChunkedBody (chunkedBody : List Nat) : Option (List Nat) :=
  if chunkedBody.isEmpty then some []
  else parseChunkedF chunkedBody.length chunkedBody []

/-! ### HTTP detection (`client.isHTTPResponse`) -/

/-- The `\s` character class of Go's `regexp` (RE2): tab, newline, form feed,
carriage return, space — but not vertical tab. -/
def reIsSpace (b : Nat) : Bool := b == 9 || b == 10 || b == 12 || b == 13 || b == 32

/-- The `\d` character class: ASCII digits. -/
def isDigitB (b : Nat) : Bool := decide (48 ≤ b ∧ b ≤ 57)

/-- Case-insensitive comparison of a byte against an upper-case ASCII letter
(or exact comparison for non-letters handled separately). -/
def ciEq (b c : Nat) : Bool := b == c || b == c + 32

/-- `\d{3}\s+` at the head of the list (one trailing space suffices for the
regex to match). -/
def threeDigitsSpace : List Nat → Bool
  | d1 :: d2 :: d3 :: s :: _ => isDigitB d1 && isDigitB d2 && isDigitB d3 && reIsSpace s
  | _ => false

/-- `\s+\d{3}\s+` at the head of the list: one space, then (since `\s` and
`\d` are disjoint, backtracking is irrelevant) the rest of the space run,
then the status code. -/
def spacesThenCode : List Nat → Bool
  | [] => false
  | b :: rest => reIsSpace b && threeDigitsSpace (rest.dropWhile reIsSpace)

/-- The status-line pattern `(?i)HTTP/\d\.\d\s+\d{3}\s+` anchored at the head. -/
def statusAt : List Nat → Bool
  | c1 :: c2 :: c3 :: c4 :: c5 :: d1 :: c6 :: d2 :: rest =>
    ciEq c1 72 && ciEq c2 84 && ciEq c3 84 && ciEq c4 80 && c5 == 47 &&
      isDigitB d1 && c6 == 46 && isDigitB d2 && spacesThenCode rest
  | _ => false

/-- `regexp.MatchString` for the status-line pattern: a match at any offset. -/
def statusLineMatch : List Nat → Bool
  | [] => false
  | b :: t => statusAt (b :: t) || statusLineMatch t

/-- The fixed header names `client.isHTTPResponse` counts. -/
def commonHeaders : List (List Nat) :=
  [ascii "Content-Type:", ascii "Content-Length:", ascii "Server:", ascii "Date:",
   ascii "Last-Modified:", ascii "ETag:", ascii "Cache-Control:",
   ascii "Access-Control-Allow-Origin:"]

/-- `client.isHTTPResponse`, translated branch for branch: inputs shorter than
10 bytes are rejected outright; a literal "HTTP/" at offset 0 is accepted; an
occurrence within the first 100 bytes whose preceding bytes are whitespace or
contain a newline is accepted; otherwise at least two known header names must
occur together with a status line, a header/body separator, or a third header
name. -/
def isHTTPResponse (data : List Nat) : Bool :=
  if data.length < 10 then false
  else if List.isPrefixOf httpMarker data then true
  else
    let noise : Bool :=
      match indexOfSub httpMarker data with
      | some i =>
        if 0 < i ∧ i < 100 then
          let t := trimSpace (data.take i)
          t.length == 0 || containsSub t [10]
        else false
      | none => false
    if noise then true
    else
      let headerCount := (commonHeaders.filter (fun h => containsSub data h)).length
      if 2 ≤ headerCount then
        if statusLineMatch data then true
        else if containsSub data [13, 10, 13, 10] || containsSub data [10, 10] then true
        else if 3 ≤ headerCount then true
        else false
      else false

/-! ### Codec lemmas -/

theorem transferHeader_unmarshal_marshal (t : TransferHeader)
    (h1 : t.Tag < 4294967296) (h2 : t.Version < 65536) (h3 : t.Command < 65536)
    (h6 : t.Reserve < 65536) (h7 : t.DataLen < 4294967296) (h8 : t.Crc < 4294967296) :
    TransferHeader.UnMarshal (TransferHeader.Marshal t) = t := by
  obtain ⟨f1, f2, f3, f4, f5, f6, f7, f8⟩ := t
  simp only [] at h1 h2 h3 h6 h7 h8
  simp [TransferHeader.Marshal, TransferHeader.UnMarshal, bufReadN, bufReadU8,
    beVal, u16be, u32be, TransferHeader.mk.injEq]
  refine ⟨by omega, by omega, by omega, by omega, by omega, by omega⟩

theorem responseHeader_unmarshal_marshal (r : ResponseHeader)
    (h1 : r.Tag < 4294967296) (h2 : r.Version < 65536) (h3 : r.Command < 65536)
    (h4 : r.Result < 65536) (h7 : r.DataLen < 4294967296) (h8 : r.OriginLen < 4294967296) :
    ResponseHeader.UnMarshal (ResponseHeader.Marshal r) = r := by
  obtain ⟨f1, f2, f3, f4, f5, f6, f7, f8⟩ := r
  simp only [] at h1 h2 h3 h4 h7 h8
  simp [ResponseHeader.Marshal, ResponseHeader.UnMarshal, bufReadN, bufReadU8,
    beVal, u16be, u32be, ResponseHeader.mk.injEq]
  refine ⟨by omega, by omega, by omega, by omega, by omega, by omega⟩

theorem transferHeader_marshal_length (t : TransferHeader) :
    (TransferHeader.Marshal t).length = 20 := by
  simp [TransferHeader.Marshal, u32be, u16be]

theorem responseHeader_marshal_length (r : ResponseHeader) :
    (ResponseHeader.Marshal r).length = 20 := by
  simp [ResponseHeader.Marshal, u32be, u16be]

/-- C3: for every request header (`TransferHeader`) and every response header
(`ResponseHeader`) whose field values lie within their integer-width ranges,
`Marshal` produces exactly 20 big-endian bytes and `UnMarshal` of those bytes
restores the original header. -/
theorem c3_header_roundtrip (t : TransferHeader) (r : ResponseHeader)
    (ht : t.Tag < 4294967296 ∧ t.Version < 65536 ∧ t.Command < 65536 ∧
      t.ProtoType < 256 ∧ t.Option < 256 ∧ t.Reserve < 65536 ∧
      t.DataLen < 4294967296 ∧ t.Crc < 4294967296)
    (hr : r.Tag < 4294967296 ∧ r.Version < 65536 ∧ r.Command < 65536 ∧
      r.Result < 65536 ∧ r.Option < 256 ∧ r.Reserve < 256 ∧
      r.DataLen < 4294967296 ∧ r.OriginLen < 4294967296) :
    (t.Marshal.length = 20 ∧ TransferHeader.UnMarshal t.Marshal = t) ∧
    (r.Marshal.length = 20 ∧ ResponseHeader.UnMarshal r.Marshal = r) := by
  obtain ⟨h1, h2, h3, _, _, h6, h7, h8⟩ := ht
  obtain ⟨g1, g2, g3, g4, _, _, g7, g8⟩ := hr
  exact ⟨⟨transferHeader_marshal_length t, transferHeader_unmarshal_marshal t h1 h2 h3 h6 h7 h8⟩,
    ⟨responseHeader_marshal_length r, responseHeader_unmarshal_marshal r g1 g2 g3 g4 g7 g8⟩⟩

/-- Witness for C3 at concrete headers. -/
theorem c3_header_roundtrip_witness :
    TransferHeader.UnMarshal (TransferHeader.Marshal ⟨1162693946, 1, 6, 2, 0, 0, 5, 0⟩) =
      ⟨1162693946, 1, 6, 2, 0, 0, 5, 0⟩ ∧
    ResponseHeader.UnMarshal (ResponseHeader.Marshal ⟨1162693946, 1, 7, 8002, 0, 0, 3, 9⟩) =
      ⟨1162693946, 1, 7, 8002, 0, 0, 3, 9⟩ :=
  ⟨(c3_header_roundtrip ⟨1162693946, 1, 6, 2, 0, 0, 5, 0⟩ ⟨1162693946, 1, 7, 8002, 0, 0, 3, 9⟩
      (by decide) (by decide)).1.2,
   (c3_header_roundtrip ⟨1162693946, 1, 6, 2, 0, 0, 5, 0⟩ ⟨1162693946, 1, 7, 8002, 0, 0, 3, 9⟩
      (by decide) (by decide)).2.2⟩

/-- C4: the header-decoding phase of `parseMessage` fails — yields no usable
header — exactly when fewer than 20 bytes are supplied or the decoded `Tag`
field differs from the magic constant 1162693946 ("EMM:"); when it succeeds,
the header it returns is the one unmarshalled from the first 20 bytes. -/
theorem c4_header_decode_fails_iff (message : List Nat) (msgLength : Nat) :
    (parseHeaderChecked message msgLength = none ↔
      msgLength < 20 ∨ (ResponseHeader.UnMarshal (message.take 20)).Tag ≠ 1162693946) ∧
    (∀ h, parseHeaderChecked message msgLength = some h →
      h = ResponseHeader.UnMarshal (message.take 20)) := by
  unfold parseHeaderChecked HEAD_TAG
  split_ifs <;> simp_all

/-- Witness for C4: a one-byte buffer is rejected. -/
theorem c4_header_decode_witness : parseHeaderChecked [0] 1 = none :=
  (c4_header_decode_fails_iff [0] 1).1.mpr (Or.inl (by decide))

theorem parseBody_take (message : List Nat) (dl : Nat) (hdl : 0 < dl)
    (hlen : dl + 20 ≤ message.length) :
    parseBody (message.take (dl + 20)) dl = (message.drop 20).take dl := by
  have hbuf : (message.take (dl + 20)).length = dl + 20 := by
    rw [List.length_take]; omega
  have h1 : (message.take (dl + 20)).drop 20 = (message.drop 20).take dl := by
    rw [List.drop_take, Nat.add_sub_cancel]
  have hsrc : ((message.take (dl + 20)).drop 20).take dl = (message.drop 20).take dl := by
    rw [h1, List.take_take, Nat.min_self]
  have hsl : ((message.drop 20).take dl).length = dl := by
    rw [List.length_take, List.length_drop]
    omega
  unfold parseBody
  rw [if_neg (by simp only [hbuf]; omega)]
  simp only [hsrc, hsl, Nat.sub_self, List.replicate_zero, List.append_nil]

/-- C10: `parseMessage` never reports data beyond the supplied buffer.  When
it returns a positive `respLen`, that length is `20 + DataLen`, it is bounded
by `msgLength`, and the body is exactly the `DataLen` bytes at offset 20 (so
empty when `DataLen = 0`); `respLen = 0` — with an empty body — exactly for a
buffer shorter than 20 bytes, a wrong tag, or a `20 + DataLen` exceeding the
supplied length. -/
theorem c10_parse_message_safe (message : List Nat) (msgLength : Nat)
    (hlen : msgLength ≤ message.length) :
    (0 < (parseMessage message msgLength).respLen →
      (parseMessage message msgLength).respLen = 20 + (parseMessage message msgLength).dataLen ∧
      (parseMessage message msgLength).respLen ≤ msgLength ∧
      (parseMessage message msgLength).body =
        (message.drop 20).take (parseMessage message msgLength).dataLen ∧
      (parseMessage message msgLength).body.length = (parseMessage message msgLength).dataLen) ∧
    ((parseMessage message msgLength).respLen = 0 ↔
      msgLength < 20 ∨ (ResponseHeader.UnMarshal (message.take 20)).Tag ≠ HEAD_TAG ∨
        msgLength < 20 + (ResponseHeader.UnMarshal (message.take 20)).DataLen) ∧
    ((parseMessage message msgLength).respLen = 0 → (parseMessage message msgLength).body = []) := by
  by_cases h20 : msgLength < 20
  · have hz : parseMessage message msgLength = ⟨0, 0, 0, 0, []⟩ := by
      unfold parseMessage parseHeaderChecked
      rw [if_pos h20]
    rw [hz]
    dsimp only
    refine ⟨fun hc => absurd hc (by omega), ⟨fun _ => Or.inl h20, fun _ => rfl⟩, fun _ => rfl⟩
  · by_cases htag : (ResponseHeader.UnMarshal (message.take 20)).Tag ≠ HEAD_TAG
    · have hz : parseMessage message msgLength = ⟨0, 0, 0, 0, []⟩ := by
        unfold parseMessage parseHeaderChecked
        rw [if_neg h20, if_pos htag]
      rw [hz]
      dsimp only
      exact ⟨fun hc => absurd hc (by omega),
        ⟨fun _ => Or.inr (Or.inl htag), fun _ => rfl⟩, fun _ => rfl⟩
    · push_neg at htag
      have hpc : parseHeaderChecked message msgLength =
          some (ResponseHeader.UnMarshal (message.take 20)) := by
        unfold parseHeaderChecked
        rw [if_neg h20]
        simp [htag]
      by_cases hfit : msgLength < (ResponseHeader.UnMarshal (message.take 20)).DataLen + 20
      · have hz : parseMessage message msgLength = ⟨0, 0, 0, 0, []⟩ := by
          unfold parseMessage
          rw [hpc]
          simp only [if_pos hfit]
        rw [hz]
        dsimp only
        exact ⟨fun hc => absurd hc (by omega),
          ⟨fun _ => Or.inr (Or.inr (by omega)), fun _ => rfl⟩, fun _ => rfl⟩
      · by_cases hdl : 0 < (ResponseHeader.UnMarshal (message.take 20)).DataLen
        · have hbody := parseBody_take message
            (ResponseHeader.UnMarshal (message.take 20)).DataLen hdl (by omega)
          have hbl : ((message.drop 20).take
              (ResponseHeader.UnMarshal (message.take 20)).DataLen).length =
              (ResponseHeader.UnMarshal (message.take 20)).DataLen := by
            rw [List.length_take, List.length_drop]
            omega
          have hs : parseMessage message msgLength =
              ⟨(ResponseHeader.UnMarshal (message.take 20)).DataLen + 20,
                (ResponseHeader.UnMarshal (message.take 20)).Command,
                (ResponseHeader.UnMarshal (message.take 20)).DataLen,
                (ResponseHeader.UnMarshal (message.take 20)).Result,
                (message.drop 20).take
                  (ResponseHeader.UnMarshal (message.take 20)).DataLen⟩ := by
            unfold parseMessage
            rw [hpc]
            simp only [if_neg hfit, if_pos hdl, hbody]
            rw [if_pos (by rw [hbl]; omega)]
          rw [hs]
          dsimp only
          refine ⟨fun _ => ⟨by omega, by omega, rfl, hbl⟩, ?_, fun hc => absurd hc (by omega)⟩
          constructor
          · intro hc
            exact absurd hc (by omega)
          · intro hc
            rcases hc with hc | hc | hc
            · exact absurd hc h20
            · exact absurd htag hc
            · exact absurd hc (by omega)
        · have hdl0 : (ResponseHeader.UnMarshal (message.take 20)).DataLen = 0 := by omega
          have hs : parseMessage message msgLength =
              ⟨(ResponseHeader.UnMarshal (message.take 20)).DataLen + 20,
                (ResponseHeader.UnMarshal (message.take 20)).Command,
                (ResponseHeader.UnMarshal (message.take 20)).DataLen,
                (ResponseHeader.UnMarshal (message.take 20)).Result, []⟩ := by
            unfold parseMessage
            rw [hpc]
            simp only [if_neg hfit, if_neg hdl]
          rw [hs]
          dsimp only
          refine ⟨fun _ => ⟨by omega, by omega, by rw [hdl0]; rfl, by rw [hdl0]; rfl⟩,
            ?_, fun hc => absurd hc (by omega)⟩
          constructor
          · intro hc
            exact absurd hc (by omega)
          · intro hc
            rcases hc with hc | hc | hc
            · exact absurd hc h20
            · exact absurd htag hc
            · exact absurd hc (by omega)

/-- Witness for C10 at a concrete valid message. -/
theorem c10_parse_message_witness :
    (parseMessage (demoMessage 65) 21).body =
      ((demoMessage 65).drop 20).take (parseMessage (demoMessage 65) 21).dataLen ∧
    (parseMessage (demoMessage 65) 21).respLen ≤ 21 :=
  ⟨((c10_parse_message_safe (demoMessage 65) 21 (by decide)).1 (by decide)).2.2.1,
   ((c10_parse_message_safe (demoMessage 65) 21 (by decide)).1 (by decide)).2.1⟩

/-- C1: evaluation of the segmentation pass at a failing input.  The raw
buffer is two back-to-back valid messages, each the 20-byte encoded header
(`DataLen = 1`) followed by its 1-byte body (`65` then `66`), so each message
occupies `len(Encode(header)) + len(body) = 21` bytes of wire.  `parseMessage`
reports `respLen = 21` for the first message — already the full wire length —
but the segmentation pass advances by `RESPONSE_HEAD_LEN + respLen = 41`
bytes, consuming 20 bytes of the second message as well: the extracted pure
payload is `[65]` instead of both bodies `[65, 66]`. -/
theorem c1_segmentation_overconsumes :
    (demoMessage 65).length = 21 ∧
    (parseMessage (demoMessage 65 ++ demoMessage 66) 42).respLen = 21 ∧
    (parseMessage ((demoMessage 65 ++ demoMessage 66).drop 21) 21).body = [66] ∧
    segmentation (demoMessage 65 ++ demoMessage 66) = [65] := by decide

/-- C5: evaluation of `DecryptAES` at the failing input.  A 17-byte ciphertext
is "not a positive multiple of 16", so per the claim it should produce the
size error; the code only guards `len < 16` and instead reaches
`CryptBlocks`, which panics.  A ciphertext shorter than one block does produce
the error, and a 16-byte ciphertext is CBC-decrypted with the trailing
trim applied (here the last decrypted byte is 5, so 5 bytes are trimmed);
with `D` the identity permutation every byte decrypts to itself. -/
theorem c5_decrypt_panics_on_unaligned :
    DecryptAES (fun l => l) (List.replicate 17 0) = GoAES.panicked ∧
    DecryptAES (fun l => l) (List.replicate 8 0) = GoAES.sizeErr ∧
    DecryptAES (fun l => l) (List.replicate 16 5) = GoAES.ok (List.replicate 11 5) := by decide

/-- C8: chunked transfer decoding of `"4\r\nWiki\r\n5\r\npedia\r\n0\r\n\r\n"`
yields exactly `"Wikipedia"`; a bare-`\n` variant and a variant with a
`;`-delimited chunk extension decode to the same bytes. -/
theorem c8_chunked_wikipedia :
    parseChunkedBody (ascii "4\r\nWiki\r\n5\r\npedia\r\n0\r\n\r\n") = some (ascii "Wikipedia") ∧
    parseChunkedBody (ascii "4\nWiki\n5\npedia\n0\n\n") = some (ascii "Wikipedia") ∧
    parseChunkedBody (ascii "4;name=value\r\nWiki\r\n5\r\npedia\r\n0\r\n\r\n") =
      some (ascii "Wikipedia") := by decide

/-- C9 counterexample: `"HTTP/1.1"` starts with the five characters `"HTTP/"`,
yet `isHTTPResponse` classifies it as not HTTP, because every input shorter
than 10 bytes is rejected before the "HTTP/" check. -/
theorem c9_short_http_counterexample :
    httpMarker.isPrefixOf (ascii "HTTP/1.1") = true ∧
    isHTTPResponse (ascii "HTTP/1.1") = false := by decide

/-- C9 (amended): every pure-payload string of at least 10 bytes that starts
with `"HTTP/"` is classified as an HTTP message by `isHTTPResponse`. -/
theorem c9_http_detect_amended (data : List Nat)
    (hlen : 10 ≤ data.length) (hpre : httpMarker.isPrefixOf data = true) :
    isHTTPResponse data = true := by
  unfold isHTTPResponse
  rw [if_neg (by omega), if_pos hpre]

/-- Witness for the amended C9. -/
theorem c9_http_detect_witness : isHTTPResponse (ascii "HTTP/1.1 200 OK") = true :=
  c9_http_detect_amended (ascii "HTTP/1.1 200 OK") (by decide) (by decide)

/-- C2 counterexample: with the identity block permutation (a legitimate
instance of the abstracted cipher: it is length-preserving and self-inverse
on 16-byte blocks), the 16-byte plaintext `65,…,65,1` — whose length is a
multiple of 16 — does not survive the round trip: decryption mistakes the
final plaintext byte 1 for a padding length and trims it. -/
theorem c2_roundtrip_counterexample :
    (List.replicate 15 65 ++ [1]).length % 16 = 0 ∧
    DecryptAES (fun l => l) (EncryptAES (fun l => l) (List.replicate 15 65 ++ [1])) =
      GoAES.ok (List.replicate 15 65) ∧
    GoAES.ok (List.replicate 15 65) ≠ GoAES.ok (List.replicate 15 65 ++ [1]) := by decide

theorem afterRead_noDataCount (cfg : LoopConfig) (s : LoopState) (ev : ReadEvent) :
    ((afterRead cfg s ev).state).noDataCount = s.noDataCount := by
  cases hev : ev.err <;>
    simp only [afterRead, hev] <;>
    first
      | rfl
      | (split_ifs <;> rfl)

/-- C6: in the response read loop, a read delivering no bytes increments the
consecutive-empty-read counter and a read delivering bytes resets it to zero
(whatever the iteration's outcome); and whenever an empty read brings the
counter to 3 (or beyond) while more than the idle threshold has elapsed since
the last non-empty read, the iteration breaks out of the loop with
`isComplete = true` — with no condition on the read's error value, so no EOF
or other termination signal is needed. -/
theorem c6_idle_completion (cfg : LoopConfig) (s : LoopState) (ev : ReadEvent) :
    (ev.chunk = [] → ((loopStep cfg s ev).state).noDataCount = s.noDataCount + 1) ∧
    (ev.chunk ≠ [] → ((loopStep cfg s ev).state).noDataCount = 0) ∧
    (ev.chunk = [] → 3 ≤ s.noDataCount + 1 → cfg.threshold < ev.now - s.lastReadTime →
      loopStep cfg s ev =
        StepRes.brk { s with noDataCount := s.noDataCount + 1, isComplete := true }) := by
  refine ⟨?_, ?_, ?_⟩
  · intro hc
    unfold loopStep
    rw [hc]
    dsimp only [List.length_nil]
    rw [if_neg (by omega)]
    split_ifs with h
    · rfl
    · exact afterRead_noDataCount cfg { s with noDataCount := s.noDataCount + 1 } ev
  · intro hc
    unfold loopStep
    rw [if_pos (List.length_pos.mpr hc)]
    dsimp only
    split_ifs with h1 h2
    · rfl
    · rfl
    · exact afterRead_noDataCount cfg _ ev
  · intro hc h3 hthr
    unfold loopStep
    rw [hc]
    dsimp only [List.length_nil]
    rw [if_neg (by omega)]
    exact if_pos ⟨h3, hthr⟩

/-- Witness for C6: third consecutive empty read, 100 time units after the
last non-empty read against a threshold of 30, with a `nil` read error —
the loop completes. -/
theorem c6_idle_completion_witness :
    loopStep ⟨2, 30, 1000⟩ ⟨false, 0, 2, 100, 30, 5, [1]⟩ ⟨[], ReadErr.noErr, 200⟩ =
      StepRes.brk ⟨true, 0, 3, 100, 30, 5, [1]⟩ :=
  (c6_idle_completion ⟨2, 30, 1000⟩ ⟨false, 0, 2, 100, 30, 5, [1]⟩
    ⟨[], ReadErr.noErr, 200⟩).2.2 rfl (by decide) (by decide)

/-- C7 counterexample: an empty read with a non-transient error while
`retries + 1` exceeds `MaxRetries = 0` and bytes (`[42]`) are already
accumulated: the iteration ends in `brk` — the loop falls through to normal
result processing, so the accumulated bytes are returned with a `nil` error —
rather than in any error-returning outcome; the claim's "the last error is
surfaced to the caller … alongside the data" fails here. -/
theorem c7_error_dropped_counterexample :
    (0 : Nat) < 0 + 1 ∧
    ([42] : List Nat) ≠ [] ∧
    loopStep ⟨0, 30, 1000⟩ ⟨false, 0, 0, 0, 30, 1, [42]⟩ ⟨[], ReadErr.otherErr false, 10⟩ =
      StepRes.brk ⟨false, 1, 1, 0, 30, 1, [42]⟩ ∧
    (loopStep ⟨0, 30, 1000⟩ ⟨false, 0, 0, 0, 30, 1, [42]⟩
        ⟨[], ReadErr.otherErr false, 10⟩).isFail = false := by decide

/-- C7 (amended): when an empty read carries a non-transient error, the
empty-read branch does not itself complete, and the retry budget is exhausted
(`MaxRetries < retries + 1`): if nothing has been accumulated the iteration
returns the last error (`fail`, mirroring `return nil, err`); if bytes have
been accumulated the iteration instead breaks out with the accumulated bytes
preserved in the state — the error is dropped and the loop falls through to
normal result processing, so the caller gets the partial data as a success,
never a silent empty success. -/
theorem c7_exhaustion_amended (cfg : LoopConfig) (s : LoopState) (ev : ReadEvent) (b : Bool)
    (he : ev.err = ReadErr.otherErr b) (hn : ev.chunk = [])
    (hidle : ¬(3 ≤ s.noDataCount + 1 ∧ cfg.threshold < ev.now - s.lastReadTime))
    (hex : cfg.maxRetries < s.retries + 1) :
    (s.raw = [] →
      loopStep cfg s ev =
        StepRes.fail { s with noDataCount := s.noDataCount + 1, retries := s.retries + 1 }
          (ReadErr.otherErr b)) ∧
    (s.raw ≠ [] →
      loopStep cfg s ev =
        StepRes.brk { s with noDataCount := s.noDataCount + 1, retries := s.retries + 1 }) := by
  have hstep : loopStep cfg s ev =
      afterRead cfg { s with noDataCount := s.noDataCount + 1 } ev := by
    unfold loopStep
    rw [hn]
    dsimp only [List.length_nil]
    rw [if_neg (by omega)]
    rw [if_neg hidle]
  rw [hstep]
  unfold afterRead
  rw [he]
  dsimp only
  rw [if_neg (by omega)]
  constructor
  · intro hraw
    rw [if_neg (by simp [hraw])]
  · intro hraw
    rw [if_pos (by simp [hraw])]

/-- Witness for the amended C7: both exhaustion outcomes at concrete states. -/
theorem c7_exhaustion_witness :
    loopStep ⟨0, 30, 1000⟩ ⟨false, 0, 0, 0, 30, 0, []⟩ ⟨[], ReadErr.otherErr false, 10⟩ =
      StepRes.fail ⟨false, 1, 1, 0, 30, 0, []⟩ (ReadErr.otherErr false) ∧
    loopStep ⟨0, 30, 1000⟩ ⟨false, 0, 0, 0, 30, 1, [42]⟩ ⟨[], ReadErr.otherErr false, 10⟩ =
      StepRes.brk ⟨false, 1, 1, 0, 30, 1, [42]⟩ :=
  ⟨(c7_exhaustion_amended ⟨0, 30, 1000⟩ ⟨false, 0, 0, 0, 30, 0, []⟩
      ⟨[], ReadErr.otherErr false, 10⟩ false rfl rfl (by decide) (by decide)).1 rfl,
   (c7_exhaustion_amended ⟨0, 30, 1000⟩ ⟨false, 0, 0, 0, 30, 1, [42]⟩
      ⟨[], ReadErr.otherErr false, 10⟩ false rfl rfl (by decide) (by decide)).2 (by decide)⟩

theorem xorBytes_length (a b : List Nat) : (xorBytes a b).length = min a.length b.length := by
  simp [xorBytes]

theorem xorBytes_cancel (a b : List Nat) (h : a.length ≤ b.length) :
    xorBytes (xorBytes a b) b = a := by
  induction a generalizing b with
  | nil => simp [xorBytes]
  | cons x t ih =>
    cases b with
    | nil => simp at h
    | cons y u =>
      have ih' := ih u (by simpa using h)
      simp only [xorBytes, List.zipWith_cons_cons] at ih' ⊢
      rw [Nat.xor_cancel_right, ih']

theorem cbcEncBlocks_length (E : List Nat → List Nat)
    (hE : ∀ bl, bl.length = 16 → (E bl).length = 16) :
    ∀ (k : Nat) (prev data : List Nat), prev.length = 16 → 16 * k ≤ data.length →
      (cbcEncBlocks E k prev data).length = 16 * k := by
  intro k
  induction k with
  | zero => intro prev data _ _; simp [cbcEncBlocks]
  | succ n ih =>
    intro prev data hprev hlen
    have ht : (data.take 16).length = 16 := by rw [List.length_take]; omega
    have hx : (xorBytes (data.take 16) prev).length = 16 := by
      simp [xorBytes_length, ht, hprev]
    have hc : (E (xorBytes (data.take 16) prev)).length = 16 := hE _ hx
    have hdrop : 16 * n ≤ (data.drop 16).length := by rw [List.length_drop]; omega
    simp only [cbcEncBlocks, List.length_append, hc, ih _ _ hc hdrop]
    ring

theorem cbcDecBlocks_encBlocks (E D : List Nat → List Nat)
    (hE : ∀ bl, bl.length = 16 → (E bl).length = 16)
    (hD : ∀ bl, bl.length = 16 → D (E bl) = bl) :
    ∀ (k : Nat) (prev data : List Nat), prev.length = 16 → 16 * k ≤ data.length →
      cbcDecBlocks D k prev (cbcEncBlocks E k prev data) = data.take (16 * k) := by
  intro k
  induction k with
  | zero => intro prev data _ _; simp [cbcDecBlocks, cbcEncBlocks]
  | succ n ih =>
    intro prev data hprev hlen
    have ht : (data.take 16).length = 16 := by rw [List.length_take]; omega
    have hx : (xorBytes (data.take 16) prev).length = 16 := by
      simp [xorBytes_length, ht, hprev]
    have hc : (E (xorBytes (data.take 16) prev)).length = 16 := hE _ hx
    have hdrop : 16 * n ≤ (data.drop 16).length := by rw [List.length_drop]; omega
    simp only [cbcEncBlocks, cbcDecBlocks]
    rw [List.take_left' hc, List.drop_left' hc, hD _ hx,
      xorBytes_cancel _ _ (by simp [ht, hprev]), ih _ _ hc hdrop, ← List.take_add]
    congr 1
    ring

theorem aesPad_aligned (p : List Nat) (h : p.length % 16 = 0) : aesPad p = p := by
  unfold aesPad
  rw [if_neg (by omega)]
  dsimp only
  have hd : p.length / 16 * 16 - p.length = 0 := by omega
  rw [hd]
  simp

theorem getLastD_append_singleton (l : List Nat) (a d : Nat) :
    (l ++ [a]).getLastD d = a := by
  induction l generalizing d with
  | nil => rfl
  | cons x t ih =>
    rw [List.cons_append, List.getLastD_cons, ih]

/-- C2 (amended): for any block permutation `E` with inverse `D` (the
abstraction of AES under the normalized key — length-preserving on 16-byte
blocks and inverted by `D`), the round trip through `EncryptAES`/`DecryptAES`
behaves as follows.  For a nonempty plaintext whose length is a multiple of
16, the result is the plaintext with the trailing trim applied: it equals the
original exactly when the last plaintext byte is not in `[1,16]` (the claimed
unconditional equality fails, see the counterexample).  For a plaintext whose
length is not a multiple of 16, the round trip returns the zero-padded
plaintext, which never equals the original.  The empty plaintext encrypts to
an empty ciphertext, which decryption rejects as undersized. -/
theorem c2_roundtrip_amended (E D : List Nat → List Nat)
    (hE : ∀ bl, bl.length = 16 → (E bl).length = 16)
    (hD : ∀ bl, bl.length = 16 → D (E bl) = bl) (p : List Nat) :
    (p.length % 16 = 0 → p ≠ [] →
      DecryptAES D (EncryptAES E p) =
        (if 0 < p.getLastD 0 ∧ p.getLastD 0 ≤ 16
         then GoAES.ok (p.take (p.length - p.getLastD 0)) else GoAES.ok p)) ∧
    (p.length % 16 ≠ 0 →
      DecryptAES D (EncryptAES E p) = GoAES.ok (aesPad p) ∧ aesPad p ≠ p) ∧
    (p = [] → DecryptAES D (EncryptAES E p) = GoAES.sizeErr) := by
  have hzlen : (zeroIV).length = 16 := by simp [zeroIV]
  refine ⟨?_, ?_, ?_⟩
  · intro hmod hne
    have hpos : 0 < p.length := List.length_pos.mpr hne
    have h16 : 16 ≤ p.length := by omega
    have hpad : aesPad p = p := aesPad_aligned p hmod
    have henc : EncryptAES E p = cbcEncBlocks E (p.length / 16) zeroIV p := by
      unfold EncryptAES
      rw [hpad]
    have hle : 16 * (p.length / 16) ≤ p.length := by omega
    have helen : (cbcEncBlocks E (p.length / 16) zeroIV p).length = p.length := by
      rw [cbcEncBlocks_length E hE (p.length / 16) zeroIV p hzlen hle]
      omega
    have hdec : cbcDecBlocks D (p.length / 16) zeroIV
        (cbcEncBlocks E (p.length / 16) zeroIV p) = p := by
      rw [cbcDecBlocks_encBlocks E D hE hD (p.length / 16) zeroIV p hzlen hle]
      have h2 : 16 * (p.length / 16) = p.length := by omega
      rw [h2, List.take_length]
    unfold DecryptAES
    rw [henc, helen]
    rw [if_neg (by omega), if_neg (by omega)]
    rw [hdec]
  · intro hmod
    have hq : p.length % 16 > 0 := by omega
    have hpad : aesPad p = p ++ List.replicate ((p.length / 16 + 1) * 16 - p.length) 0 := by
      unfold aesPad
      rw [if_pos hq]
    have hL : (aesPad p).length = (p.length / 16 + 1) * 16 := by
      rw [hpad]
      simp only [List.length_append, List.length_replicate]
      omega
    obtain ⟨r, hrr⟩ : ∃ r, (p.length / 16 + 1) * 16 - p.length = r + 1 :=
      ⟨(p.length / 16 + 1) * 16 - p.length - 1, by omega⟩
    have hlast : (aesPad p).getLastD 0 = 0 := by
      rw [hpad, hrr, List.replicate_succ', ← List.append_assoc]
      exact getLastD_append_singleton _ 0 0
    have hge : 16 ≤ (aesPad p).length := by rw [hL]; omega
    have hL16 : (aesPad p).length % 16 = 0 := by rw [hL]; omega
    have hle : 16 * ((aesPad p).length / 16) ≤ (aesPad p).length := by omega
    have helen : (cbcEncBlocks E ((aesPad p).length / 16) zeroIV (aesPad p)).length
        = (aesPad p).length := by
      rw [cbcEncBlocks_length E hE ((aesPad p).length / 16) zeroIV (aesPad p) hzlen hle]
      omega
    have hdec : cbcDecBlocks D ((aesPad p).length / 16) zeroIV
        (cbcEncBlocks E ((aesPad p).length / 16) zeroIV (aesPad p)) = aesPad p := by
      rw [cbcDecBlocks_encBlocks E D hE hD ((aesPad p).length / 16) zeroIV (aesPad p) hzlen hle]
      have h2 : 16 * ((aesPad p).length / 16) = (aesPad p).length := by omega
      rw [h2, List.take_length]
    constructor
    · unfold DecryptAES EncryptAES
      rw [helen]
      rw [if_neg (by omega), if_neg (by omega)]
      rw [hdec]
      dsimp only
      rw [hlast]
      rw [if_neg (by omega)]
    · intro heq
      have hlen := congrArg List.length heq
      rw [hL] at hlen
      omega
  · intro hp
    subst hp
    rfl

/-- Witness for the amended C2 with the identity permutation: a 16-byte
plaintext ending in byte 3 round-trips to its first 13 bytes. -/
theorem c2_roundtrip_witness :
    (List.replicate 16 3).length % 16 = 0 ∧
    DecryptAES (fun l => l) (EncryptAES (fun l => l) (List.replicate 16 3)) =
      GoAES.ok (List.replicate 13 3) := by
  refine ⟨by decide, ?_⟩
  have h := (c2_roundtrip_amended (fun l => l) (fun l => l)
      (fun bl hbl => hbl) (fun bl hbl => rfl) (List.replicate 16 3)).1 (by decide) (by decide)
  rw [h]
  decide
